import Mathlib

/-!
# Verification of the crawl-and-extract engine

A shallow embedding, in Lean, of the scraper implemented in
`wordpress_scrapper/rag_enahnced/new_rag_wordpress_scrapper.py` (class
`WordPressScraper`) and `webscrapper/web_scrapper.py` (class `WebsiteScraper`).
Python strings are modelled as `String` (operated on through `List Char`),
Python sets as `Finset String`, and fallible code as `Except`/`Option` values.
Each definition is translated from the Python source it names in its
doc comment; the stateful crawl loop becomes a step relation on an explicit
state record.
-/

namespace Scraper

/-! ## Python string primitives, modelled over `List Char` -/

/-- Python `str.lower`, ASCII model: lowercase every character. -/
def lowerL (l : List Char) : List Char := l.map Char.toLower

/-- Python `a.endswith(b)`: is `suf` a suffix of `l`. -/
def endsWithL (l suf : List Char) : Bool := List.isPrefixOf suf.reverse l.reverse

/-- Python `b in a` (substring containment of `pat` in `l`). -/
def containsSubL (pat : List Char) : List Char → Bool
  | [] => pat.isPrefixOf []
  | c :: t => pat.isPrefixOf (c :: t) || containsSubL pat t

/-- Python `str.strip()` (both ends, whitespace). -/
def stripWsL (l : List Char) : List Char :=
  ((l.dropWhile Char.isWhitespace).reverse.dropWhile Char.isWhitespace).reverse

/-- Python `str.strip(c)` for a single character argument (both ends). -/
def stripCharL (c : Char) (l : List Char) : List Char :=
  ((l.dropWhile (· == c)).reverse.dropWhile (· == c)).reverse

/-- Python `str.strip()` on `String`. -/
def pyStrip (s : String) : String := ⟨stripWsL s.data⟩

/-! ## URL parsing, modelling the pieces of `urllib.parse.urlparse` the
scraper uses (`scheme`, `netloc`, `path`).  A URL with a scheme is split at
the first `"://"`; the netloc then runs up to the first `/`, `?` or `#`, and
the path from there up to the first `?` or `#`.  URLs without `"://"` are
treated as relative references: empty scheme and netloc, everything up to the
query/fragment is the path. -/

/-- Split a character list at the first occurrence of `"://"`, returning the
part before and the part after the separator. -/
def splitSchemeL : List Char → Option (List Char × List Char)
  | [] => none
  | c :: t =>
    if List.isPrefixOf [':', '/', '/'] (c :: t) then some ([], t.drop 2)
    else match splitSchemeL t with
      | some (a, b) => some (c :: a, b)
      | none => none

/-- Character that terminates a netloc. -/
def netlocEnd (c : Char) : Bool := c == '/' || c == '?' || c == '#'

/-- Model of `urlparse(u).netloc`. -/
def urlNetloc (u : String) : String :=
  match splitSchemeL u.data with
  | some (_, rest) => ⟨rest.takeWhile (fun c => !netlocEnd c)⟩
  | none => ""

/-- Model of `urlparse(u).path`. -/
def urlPath (u : String) : String :=
  match splitSchemeL u.data with
  | some (_, rest) =>
    ⟨(rest.dropWhile (fun c => !netlocEnd c)).takeWhile (fun c => !(c == '?' || c == '#'))⟩
  | none => ⟨u.data.takeWhile (fun c => !(c == '?' || c == '#'))⟩

/-- Model of `urlparse(u).scheme`. -/
def urlScheme (u : String) : String :=
  match splitSchemeL u.data with
  | some (s, _) => ⟨s⟩
  | none => ""

/-- Model of `f"{parsed_url.scheme}://{parsed_url.netloc}"`, the scraper's
`self.base_url` (constructor, line 42). -/
def baseUrlOf (startUrl : String) : String :=
  urlScheme startUrl ++ "://" ++ urlNetloc startUrl

/-! ## URL classification (`WordPressScraper.is_document`, `is_valid_url`) -/

/-- The `document_extensions` list of the constructor (lines 65-68). -/
def documentExtensions : List String :=
  [".pdf", ".doc", ".docx", ".xls", ".xlsx", ".ppt", ".pptx",
   ".csv", ".txt", ".rtf", ".zip", ".rar", ".mp3", ".mp4", ".odt"]

/-- Model of `WordPressScraper.is_document` (lines 102-104):
`any(url.lower().endswith(ext) for ext in self.document_extensions)`. -/
def isDocL (l : List Char) : Bool :=
  documentExtensions.any (fun e => endsWithL (lowerL l) e.data)

/-- String-level `is_document`. -/
def isDocumentUrl (u : String) : Bool := isDocL u.data

/-- The `ignored_patterns` list of `is_valid_url` (line 96). -/
def ignoredPatterns : List String :=
  ["wp-admin", "wp-login", "feed", "comment", "?s=", "wp-json"]

/-- Model of `WordPressScraper.is_valid_url` (lines 78-100): rejects empty URLs,
URLs whose netloc is nonempty and differs from the base netloc, URLs ending
in `.css`/`.js`, and URLs containing an ignored pattern. -/
def isValidUrl (baseNetloc : String) (u : String) : Bool :=
  if u == "" then false
  else
    let netloc := urlNetloc u
    if netloc != "" && netloc != baseNetloc then false
    else if [".css", ".js"].any (fun e => endsWithL (lowerL u.data) e.data) then false
    else if ignoredPatterns.any (fun p => containsSubL p.data u.data) then false
    else true

/-! ## URL normalization (`WordPressScraper.extract_urls`, lines 257-268;
identical code in `WebsiteScraper.extract_urls`, lines 173-184): strip the
fragment with `full_url.split('#')[0]`, then for non-document URLs drop a
single trailing slash. -/

/-- Python `u.split('#')[0]`: the prefix before the first `#`. -/
def stripFragmentL (l : List Char) : List Char := l.takeWhile (· != '#')

/-- The normalization applied to every discovered link: fragment strip, then
one trailing-slash strip for non-document URLs. -/
def normalizeUrl (u : String) : String :=
  let v := stripFragmentL u.data
  if !isDocL v && v.getLast? == some '/' then ⟨v.dropLast⟩ else ⟨v⟩

/-! ## Artifact naming (`WordPressScraper.get_clean_filename`, lines 106-118,
and `save_structured_content`, lines 403-430) -/

/-- Python regex `\w` (ASCII model): letters, digits, underscore. -/
def wordChar (c : Char) : Bool := c.isAlphanum || c == '_'

/-- Model of `WordPressScraper.get_clean_filename`: strip surrounding slashes from the
URL path, map the empty path to `"homepage"`, replace `/` by `_`, then replace
every character outside `[\w\-_\.]` by `_` (the `re.sub` on line 117). -/
def getCleanFilename (u : String) : String :=
  let path := stripCharL '/' (urlPath u).data
  let path := if path == [] then "homepage".data
              else path.map (fun c => if c == '/' then '_' else c)
  ⟨path.map (fun c => if wordChar c || c == '-' || c == '.' then c else '_')⟩

/-- Model of `os.path.join` for a folder without a trailing separator. -/
def pjoin (a b : String) : String := a ++ "/" ++ b

/-- The per-page artifact path built in `save_structured_content` (line 410):
`os.path.join(self.output_folder, f"{filename}.json")`. -/
def pageArtifactPath (outputFolder u : String) : String :=
  pjoin outputFolder (getCleanFilename u ++ ".json")

/-! ## HTML document model

Parsed HTML (what `BeautifulSoup(html_content, 'html.parser')` produces) is a
tree of text nodes and element nodes.  `html.parser` itself is tolerant and
does not raise, so the claims about extraction quantify over parsed trees.
The forest of children is a mutually inductive type so that every traversal
is structural (and hence evaluable by the kernel). -/

mutual
inductive HNode where
  | htext (s : String)
  | helem (tag : String) (attrs : List (String × String)) (children : HForest)
inductive HForest where
  | hnil
  | hcons (n : HNode) (rest : HForest)
end

/-- Build a forest from a list of nodes (concrete-syntax convenience). -/
def HForest.ofL : List HNode → HForest
  | [] => .hnil
  | n :: t => .hcons n (HForest.ofL t)

/-- Attribute lookup on an attribute list (first binding wins, as in a parsed
tag). -/
def attrOf (attrs : List (String × String)) (k : String) : Option String :=
  (attrs.find? (fun p => p.1 == k)).map (·.2)

/-- Tag name of a node; `""` for text nodes (text nodes have no `.name`). -/
def nodeName : HNode → String
  | .htext _ => ""
  | .helem t _ _ => t

/-- Attribute of an element node. -/
def nodeAttr (k : String) : HNode → Option String
  | .htext _ => none
  | .helem _ a _ => attrOf a k

/-- Does the node match a given tag name (text nodes never match). -/
def isTag (t : String) : HNode → Bool
  | .htext _ => false
  | .helem tg _ _ => tg == t

/-- Does the node match one of the given tag names (`find_all([...])`). -/
def isTagIn (ts : List String) : HNode → Bool
  | .htext _ => false
  | .helem tg _ _ => ts.contains tg

mutual
/-- All descendant strings of a node, in document order (the strings
`get_text` concatenates). -/
def textsN : HNode → List String
  | .htext s => [s]
  | .helem _ _ cs => textsF cs
/-- Forest version of `textsN`. -/
def textsF : HForest → List String
  | .hnil => []
  | .hcons n r => textsN n ++ textsF r
end

/-- Python `"".join(list)`. -/
def concatAll (l : List String) : String := l.foldl (· ++ ·) ""

/-- BeautifulSoup `node.get_text(strip=True)`: strip each descendant string,
drop the ones that become empty, concatenate. -/
def getTextStrip (n : HNode) : String :=
  concatAll (((textsN n).map pyStrip).filter (fun s => s != ""))

mutual
/-- BeautifulSoup `node.find_all(pred)`: matching descendants in document
order (a matching node precedes the matches inside it; the node itself is
not considered). -/
def findAllN (p : HNode → Bool) : HNode → List HNode
  | .htext _ => []
  | .helem _ _ cs => findAllF p cs
/-- Forest version of `findAllN`. -/
def findAllF (p : HNode → Bool) : HForest → List HNode
  | .hnil => []
  | .hcons n r => (if p n then [n] else []) ++ findAllN p n ++ findAllF p r
end

/-- BeautifulSoup `node.find(pred)` / `soup.title` / `soup.body`: the first
matching descendant in document order. -/
def findFirstN (p : HNode → Bool) (n : HNode) : Option HNode :=
  (findAllN p n).head?

mutual
/-- Decompose every matching descendant (`element.decompose()` applied to all
results of a `find_all`/`select`): the matching subtrees are removed. -/
def removeAllN (p : HNode → Bool) : HNode → HNode
  | .htext s => .htext s
  | .helem t a cs => .helem t a (removeAllF p cs)
/-- Forest version of `removeAllN`. -/
def removeAllF (p : HNode → Bool) : HForest → HForest
  | .hnil => .hnil
  | .hcons n r =>
    if p n then removeAllF p r else .hcons (removeAllN p n) (removeAllF p r)
end

/-- BeautifulSoup `tag.string`: the string of a tag with a single string
child, recursing through a single-tag chain, and `None` otherwise (in
particular for a tag with no children, such as `<title></title>`). -/
def nodeString : HNode → Option String
  | .htext s => some s
  | .helem _ _ (.hcons c .hnil) => nodeString c
  | .helem _ _ _ => none

/-- Split a character list on a character predicate, keeping empty pieces
(Python `str.split` with separators at each matching character). -/
def splitPredL (p : Char → Bool) : List Char → List (List Char)
  | [] => [[]]
  | c :: t =>
    let r := splitPredL p t
    if p c then [] :: r
    else match r with
      | [] => [[c]]
      | h :: t2 => (c :: h) :: t2

/-- Python `str.split()` (no argument): split on whitespace runs, dropping
empty pieces.  Also the whitespace split used for CSS multi-class values. -/
def pySplitWs (s : String) : List String :=
  ((splitPredL Char.isWhitespace s.data).map (fun l => (⟨l⟩ : String))).filter
    (fun x => x != "")

/-! ## CSS selectors (`soup.select`)

Every selector the scraper uses is a bare tag name, a `.class`, or a `#id`. -/

/-- The selector forms used by the source. -/
inductive Sel where
  | tagSel (t : String)
  | classSel (c : String)
  | idSel (i : String)

/-- Parse one selector string from the configured selector lists. -/
def parseSel (s : String) : Sel :=
  match s.data with
  | '.' :: rest => .classSel ⟨rest⟩
  | '#' :: rest => .idSel ⟨rest⟩
  | _ => .tagSel s

/-- Does a node match a selector (`soup.select(sel)` membership). -/
def matchesSel : Sel → HNode → Bool
  | _, .htext _ => false
  | .tagSel t, .helem tg _ _ => tg == t
  | .classSel c, .helem _ a _ =>
    (pySplitWs ((attrOf a "class").getD "")).contains c
  | .idSel i, .helem _ a _ => attrOf a "id" == some i

/-- Python `max(nodes, key=lambda x: len(x.get_text(strip=True)))`: the
first node of maximal stripped-text length (`max` keeps the earliest
maximum). -/
def pickLargest : List HNode → Option HNode
  | [] => none
  | n :: ns =>
    some (ns.foldl
      (fun acc m =>
        if (getTextStrip m).length > (getTextStrip acc).length then m else acc)
      n)

/-! ## Decimal rendering of a natural number

Python renders the document counter with an f-string (`f"document_{n}"`,
`f"{base}_{counter}{ext}"`).  `Nat.repr` is not kernel-reducible through
`decide` in all positions, so the model carries its own fuel-based decimal
renderer (standard digit recursion; the fuel `n + 1` always suffices). -/

/-- Fuel-based decimal digits of `n`, most significant first. -/
def decRender : Nat → Nat → List Char
  | 0, _ => []
  | fuel + 1, n =>
    if n < 10 then [Nat.digitChar n]
    else decRender fuel (n / 10) ++ [Nat.digitChar (n % 10)]

/-- Python `f"{n}"` for a natural number. -/
def natToDec (n : Nat) : String := ⟨decRender (n + 1) n⟩

/-! ## URL resolution (`urllib.parse.urljoin`)

Model of RFC 3986 reference resolution as used on `href`/`src` attributes:
absolute references (containing `"://"`) are taken as-is, scheme-relative
(`//…`) and root-relative (`/…`) references are resolved against the base,
and other references replace the last path segment of the base.  Dot-segment
normalization (`.`/`..`) is not modelled; no claim exercises it. -/

/-- Longest prefix of the list ending in `'/'`, if any. -/
def upToLastSlash : List Char → Option (List Char)
  | [] => none
  | c :: t =>
    match upToLastSlash t with
    | some r => some (c :: r)
    | none => if c == '/' then some ['/'] else none

/-- Model of `urljoin(base, rel)`. -/
def urljoin (base rel : String) : String :=
  if rel == "" then ⟨stripFragmentL base.data⟩
  else if (splitSchemeL rel.data).isSome then rel
  else if List.isPrefixOf ['/', '/'] rel.data then urlScheme base ++ ":" ++ rel
  else if rel.data.head? == some '/' then
    urlScheme base ++ "://" ++ urlNetloc base ++ rel
  else
    urlScheme base ++ "://" ++ urlNetloc base ++
      (⟨(upToLastSlash (urlPath base).data).getD ['/']⟩ : String) ++ rel

/-! ## Content extraction
(`WordPressScraper.extract_structured_content`, lines 280-401) -/

/-- The `self.nav_selectors` list (constructor, lines 52-56). -/
def navSelectors : List String :=
  ["nav", "header", ".nav", ".navbar", ".navigation", "#nav", "#navbar",
   ".menu", "#menu", ".header", "#header", ".site-header", "#site-header",
   ".main-navigation", "#main-navigation", ".primary-menu", "#primary-menu"]

/-- The `self.footer_selectors` list (constructor, lines 58-62). -/
def footerSelectors : List String :=
  ["footer", ".footer", "#footer", ".site-footer", "#site-footer",
   ".bottom", "#bottom", ".site-info", "#site-info", ".copyright",
   "#copyright", ".widget-area", "#widget-area", ".sidebar", "#sidebar"]

/-- The `content_selectors` list (lines 313-317). -/
def contentSelectors : List String :=
  ["article", ".post", "#post", ".post-content", "#post-content",
   ".entry-content", "#entry-content", ".content", "#content",
   ".page-content", "#page-content", "main", ".main", "#main"]

/-- Tags decomposed on lines 300-301: script, style, meta, noscript, svg,
iframe. -/
def strippedTags : List String :=
  ["script", "style", "meta", "noscript", "svg", "iframe"]

/-- The block-level tags collected as content blocks (line 360). -/
def blockTags : List String := ["p", "li", "blockquote", "pre"]

/-- Model of `WordPressScraper.remove_elements` applied to a selector list: decompose
the matches of each selector in turn (lines 273-278, 304, 307). -/
def removeBySelectors (sels : List String) (n : HNode) : HNode :=
  sels.foldl (fun acc s => removeAllN (matchesSel (parseSel s)) acc) n

/-- The destructive cleaning phase (lines 300-307): drop script/style/meta/
noscript/svg/iframe, then the nav selectors, then the footer selectors. -/
def cleanSoup (soup : HNode) : HNode :=
  removeBySelectors footerSelectors
    (removeBySelectors navSelectors (removeAllN (isTagIn strippedTags) soup))

/-- The selector cascade of lines 319-324: first selector with a nonempty
`select` result wins, largest match by stripped-text length. -/
def selectFirstContent : List String → HNode → Option HNode
  | [], _ => none
  | s :: rest, soup =>
    let found := findAllN (matchesSel (parseSel s)) soup
    if found.isEmpty then selectFirstContent rest soup else pickLargest found

/-- Main-content location (lines 310-334): selector cascade, then the
largest `div`, then `soup.body`, else nothing. -/
def mainContentOf (soup : HNode) : Option HNode :=
  match selectFirstContent contentSelectors soup with
  | some n => some n
  | none =>
    match pickLargest (findAllN (isTag "div") soup) with
    | some n => some n
    | none => findFirstN (isTag "body") soup

/-- One entry of `structured_content["headings"]`. -/
structure Heading where
  level : Nat
  text : String
deriving DecidableEq, Repr

/-- One entry of `structured_content["content_blocks"]` (`btype` is the
`"type"` key, `p.name`). -/
structure Block where
  btype : String
  text : String
deriving DecidableEq, Repr

/-- One entry of `structured_content["images"]`. -/
structure ImageRef where
  src : String
  alt : String
deriving DecidableEq, Repr

/-- One entry of `structured_content["links"]`. -/
structure LinkRef where
  text : String
  href : String
deriving DecidableEq, Repr

/-- The structured content record built by `extract_structured_content`. -/
structure Page where
  url : String
  title : String
  metaDescription : String
  headings : List Heading
  contentBlocks : List Block
  images : List ImageRef
  links : List LinkRef
  plainText : String
deriving DecidableEq, Repr

/-- The tag name f-string `f'h{level}'` (line 351). -/
def levelTag (l : Nat) : String := "h" ++ natToDec l

/-- Heading extraction (lines 350-357): for each level 1..6, all `h<level>`
descendants of the main content in document order, keeping nonempty stripped
text. -/
def headingsOf (mc : HNode) : List Heading :=
  (List.range 6).flatMap (fun i =>
    (findAllN (isTag (levelTag (i + 1))) mc).filterMap (fun h =>
      let t := getTextStrip h
      if t != "" then some ⟨i + 1, t⟩ else none))

/-- Content-block extraction (lines 360-366): `p`/`li`/`blockquote`/`pre`
descendants, kept when the stripped text is nonempty and longer than 10. -/
def blocksOf (mc : HNode) : List Block :=
  (findAllN (isTagIn blockTags) mc).filterMap (fun e =>
    let t := getTextStrip e
    if t != "" && t.length > 10 then some ⟨nodeName e, t⟩ else none)

/-- Image extraction (lines 369-376). -/
def imagesOf (url : String) (mc : HNode) : List ImageRef :=
  (findAllN (fun n => isTag "img" n && (nodeAttr "src" n).isSome) mc).filterMap
    (fun e =>
      let src := urljoin url ((nodeAttr "src" e).getD "")
      let alt := pyStrip ((nodeAttr "alt" e).getD "")
      if src != "" then some ⟨src, alt⟩ else none)

/-- Link extraction (lines 379-386). -/
def linksOf (url : String) (mc : HNode) : List LinkRef :=
  (findAllN (fun n => isTag "a" n && (nodeAttr "href" n).isSome) mc).filterMap
    (fun e =>
      let t := getTextStrip e
      let href := urljoin url ((nodeAttr "href" e).getD "")
      if t != "" && href != "" then some ⟨t, href⟩ else none)

/-- Python `"#" * n`. -/
def hashMarks (n : Nat) : String := ⟨List.replicate n '#'⟩

/-- The plain-text concatenation of lines 389-399: title, optional meta
description, `#`-prefixed headings, block texts, each followed by a blank
line, finally stripped. -/
def plainTextOf (title metaDesc : String) (hs : List Heading) (bs : List Block) :
    String :=
  let s := title ++ "\n\n"
  let s := if metaDesc != "" then s ++ metaDesc ++ "\n\n" else s
  let s := hs.foldl (fun acc h => acc ++ hashMarks h.level ++ " " ++ h.text ++ "\n\n") s
  let s := bs.foldl (fun acc b => acc ++ b.text ++ "\n\n") s
  pyStrip s

/-- The title computation of line 291:
`soup.title.string.strip() if soup.title else "No Title"`.  When the title
tag exists but `.string` is `None` (for example `<title></title>`), the
attribute access `.strip()` on `None` raises `AttributeError`; that outcome
is the `.error` branch. -/
def titleResult (soup : HNode) : Except String String :=
  match findFirstN (isTag "title") soup with
  | none => .ok "No Title"
  | some t =>
    match nodeString t with
    | some s => .ok (pyStrip s)
    | none => .error "AttributeError"

/-- The meta-description capture of lines 294-297. -/
def metaDescOf (soup : HNode) : String :=
  match findFirstN
      (fun n => isTag "meta" n && nodeAttr "name" n == some "description") soup with
  | none => ""
  | some m =>
    match nodeAttr "content" m with
    | some c => pyStrip c
    | none => ""

/-- Model of `WordPressScraper.extract_structured_content` on a parsed document:
capture title and meta description, clean the soup, choose the main content
node, and assemble the structured record; an uncaught Python exception is the
`.error` result. -/
def extractStructuredContent (url : String) (soup : HNode) : Except String Page :=
  match titleResult soup with
  | .error e => .error e
  | .ok title =>
    let metaDesc := metaDescOf soup
    match mainContentOf (cleanSoup soup) with
    | some mc =>
      let hs := headingsOf mc
      let bs := blocksOf mc
      .ok { url := url, title := title, metaDescription := metaDesc,
            headings := hs, contentBlocks := bs,
            images := imagesOf url mc, links := linksOf url mc,
            plainText := plainTextOf title metaDesc hs bs }
    | none =>
      .ok { url := url, title := title, metaDescription := metaDesc,
            headings := [], contentBlocks := [], images := [], links := [],
            plainText := plainTextOf title metaDesc [] [] }

/-! ## Persistence of a page (`save_structured_content`, lines 403-430) -/

/-- A page as serialized: the record plus `chunk_info` and `file_path`. -/
structure SavedPage where
  page : Page
  wordCount : Nat
  charCount : Nat
  filePath : String
deriving DecidableEq, Repr

/-- Model of `save_structured_content` metadata: `word_count` is
`len(plain_text.split())`, `char_count` is `len(plain_text)`, `file_path`
comes from `get_clean_filename`. -/
def saveStructuredContent (outputFolder : String) (p : Page) : SavedPage :=
  { page := p,
    wordCount := (pySplitWs p.plainText).length,
    charCount := p.plainText.length,
    filePath := pageArtifactPath outputFolder p.url }

/-! ## Frontier and crawl loop (`scrape`, lines 493-514, and
`extract_urls`, lines 244-271) -/

/-- The mutable crawl state: `self.visited_urls`, `self.found_urls`, and the
`content_index["pages"]` list (url, title, file path). -/
structure CrawlState where
  visited : Finset String
  pending : Finset String
  pages : List (String × String × String)
deriving DecidableEq

/-- The constructor state (lines 45-46): nothing visited, the start URL
pending, an empty index. -/
def initState (startUrl : String) : CrawlState := ⟨∅, {startUrl}, []⟩

/-- The per-href body of `extract_urls` (lines 250-271): skip empty and
`javascript:` links, resolve against the page URL, strip the fragment, skip
if empty, strip one trailing slash for non-documents, then keep the result
when `is_valid_url` accepts it and it has not been visited. -/
def candidateUrl (baseNetloc pageUrl : String) (visited : Finset String)
    (href : String) : Option String :=
  if href == "" || List.isPrefixOf "javascript:".data href.data then none
  else
    let full : String := ⟨stripFragmentL (urljoin pageUrl href).data⟩
    if full == "" then none
    else
      let full : String :=
        if !isDocumentUrl full && full.data.getLast? == some '/' then
          ⟨full.data.dropLast⟩
        else full
      if isValidUrl baseNetloc full then
        if full ∈ visited then none else some full
      else none

/-- All URLs that one call of `extract_urls` adds to `found_urls`: the
`<a href=…>` descendants of the page, passed through `candidateUrl`. -/
def extractUrlsList (baseNetloc pageUrl : String) (soup : HNode)
    (visited : Finset String) : List String :=
  (findAllN (fun n => isTag "a" n && (nodeAttr "href" n).isSome) soup).filterMap
    (fun a => candidateUrl baseNetloc pageUrl visited ((nodeAttr "href" a).getD ""))

/-- The same discoveries as a set (`found_urls` is a Python set). -/
def extractUrlsSet (baseNetloc pageUrl : String) (soup : HNode)
    (visited : Finset String) : Finset String :=
  (extractUrlsList baseNetloc pageUrl soup visited).toFinset

/-- One iteration of the `while self.found_urls` loop (lines 493-514) acting
on the frontier sets: pop `url`, skip it if already visited, otherwise mark
it visited and, when HTML was obtained (`html` is `some soup`; `none` covers
document URLs and failed fetches), merge the extracted links into the pending
set. -/
def crawlStep (baseNetloc : String) (s : CrawlState) (url : String)
    (html : Option HNode) : CrawlState :=
  if url ∈ s.visited then { s with pending := s.pending.erase url }
  else
    let visited := insert url s.visited
    match html with
    | none => { s with visited := visited, pending := s.pending.erase url }
    | some soup =>
      { s with visited := visited,
               pending := (s.pending.erase url) ∪
                 extractUrlsSet baseNetloc url soup visited }

/-- One step of the crawl loop: some pending URL is processed (the pop order
of a Python set is arbitrary, so any pending member may be chosen, with any
fetch outcome). -/
inductive Step (baseNetloc : String) : CrawlState → CrawlState → Prop where
  | mk (s : CrawlState) (url : String) (html : Option HNode)
      (hu : url ∈ s.pending) : Step baseNetloc s (crawlStep baseNetloc s url html)

/-- A run of the crawl loop: finitely many steps. -/
def Reaches (baseNetloc : String) : CrawlState → CrawlState → Prop :=
  Relation.ReflTransGen (Step baseNetloc)

/-- The page-processing arm of the loop body (lines 509-511 plus
`save_structured_content`): extract, then append to the index and emit the
saved record.  An extraction error emits nothing. -/
def processPage (outputFolder : String) (s : CrawlState) (url : String)
    (soup : HNode) : CrawlState × Option SavedPage :=
  match extractStructuredContent url soup with
  | .error _ => (s, none)
  | .ok p =>
    let sp := saveStructuredContent outputFolder p
    ({ s with pages := s.pages ++ [(p.url, p.title, sp.filePath)] }, some sp)

/-! ## Document download (`download_document`, lines 162-242; the same
logic at `WebsiteScraper.download_document`, lines 93-158) -/

/-- Model of `os.path.basename` on a URL path (no backslashes): the part
after the last `/`. -/
def basenameL (l : List Char) : List Char :=
  (l.reverse.takeWhile (· != '/')).reverse

/-- Does the filename contain a dot (`'.' in filename`). -/
def hasDotL (l : List Char) : Bool := l.contains '.'

/-- Remainder after the first occurrence of `pat`, if `pat` occurs. -/
def afterSub (pat : List Char) : List Char → Option (List Char)
  | [] => if pat == ([] : List Char) then some [] else none
  | c :: t =>
    if List.isPrefixOf pat (c :: t) then some ((c :: t).drop pat.length)
    else afterSub pat t

/-- Model of `re.findall('filename="?([^"]+)"?', cd)` taking the first
match: text after `filename=`, an optional opening quote skipped, up to the
next quote or the end, nonempty. -/
def parseCDFilename (cd : String) : Option String :=
  match afterSub "filename=".data cd.data with
  | none => none
  | some rest =>
    let rest := if rest.head? == some '"' then rest.tail else rest
    let name := rest.takeWhile (· != '"')
    if name == ([] : List Char) then none else some ⟨name⟩

/-- Model of `mimetypes.guess_extension` on the content types the claims
exercise; unknown types yield `none` exactly as `guess_extension` yields
`None`. -/
def guessExtension (ct : String) : Option String :=
  (([("application/pdf", ".pdf"), ("application/msword", ".doc"),
     ("application/zip", ".zip"), ("text/plain", ".txt"),
     ("text/html", ".html")] : List (String × String)).find?
    (fun p => p.1 == ct)).map (·.2)

/-- Model of `response.headers.get('Content-Type', '').split(';')[0]` (lines 192,
222). -/
def contentTypeMain (h : Option String) : String :=
  ⟨(h.getD "").data.takeWhile (· != ';')⟩

/-- The filename cleanup of lines 200-203: drop a query-string remnant, then
replace every character outside `[\w\-\. ]` by `_`. -/
def sanitizeFilename (f : String) : String :=
  ⟨(f.data.takeWhile (· != '?')).map
    (fun c => if wordChar c || c == '-' || c == '.' || c == ' ' then c else '_')⟩

/-- Filename resolution of `download_document` (lines 174-203): the
basename of the URL path; if that is empty or dotless, a name parsed from
the `Content-Disposition` header; if still empty or dotless, the generated
`document_<n>` name with an extension guessed from the content type (`.bin`
when unknown); finally sanitized. -/
def resolveFilename (urlPath : String) (cd : Option String) (ct : Option String)
    (downloadedCount : Nat) : String :=
  let filename := basenameL urlPath.data
  let filename :=
    if filename == ([] : List Char) || !hasDotL filename then
      let filename :=
        match cd with
        | some h =>
          match parseCDFilename h with
          | some f => f.data
          | none => filename
        | none => filename
      if filename == ([] : List Char) || !hasDotL filename then
        let gen := ("document_" ++ natToDec (downloadedCount + 1)).data
        match guessExtension (contentTypeMain ct) with
        | some e => gen ++ e.data
        | none => gen ++ ".bin".data
      else filename
    else filename
  sanitizeFilename ⟨filename⟩

/-- Model of `os.path.splitext` restricted to a bare filename: split at the
last dot, except that a name whose characters before that dot are all dots
(such as `.bashrc`) keeps its dot in the root.  `splitLastDot` returns the
part before the last dot and the extension starting at it. -/
def splitLastDot : List Char → Option (List Char × List Char)
  | [] => none
  | c :: t =>
    match splitLastDot t with
    | some (b, e) => some (c :: b, e)
    | none => if c == '.' then some ([], '.' :: t) else none

/-- The `base, ext = os.path.splitext(filename)` of line 210. -/
def splitextL (l : List Char) : List Char × List Char :=
  match splitLastDot l with
  | some (b, e) => if b.any (· != '.') then (b, e) else (l, [])
  | none => (l, [])

/-- Candidate target paths of the collision loop (lines 206-214): index 0 is
the plain `os.path.join(self.docs_folder, filename)`, index `k ≥ 1` is the
path with `_{k}` inserted before the extension. -/
def docCandidate (docsFolder fn : String) (k : Nat) : String :=
  if k == 0 then pjoin docsFolder fn
  else
    pjoin docsFolder
      ((⟨(splitextL fn.data).1⟩ : String) ++ "_" ++ natToDec k ++
        (⟨(splitextL fn.data).2⟩ : String))

/-- The collision-avoidance loop of lines 208-214: keep the plain path when
it is free, otherwise take the first indexed candidate `_1`, `_2`, … that is
free.  The candidates are pairwise distinct strings, so among the first
`existing.card + 1` indexed candidates at least one is free and the
bounded search always succeeds; the fallback arm after the search is
unreachable (`downloadTarget_not_mem` below proves the chosen path fresh). -/
def downloadTarget (existing : Finset String) (docsFolder fn : String) : String :=
  let plain := docCandidate docsFolder fn 0
  if plain ∈ existing then
    match (List.range (existing.card + 1)).find?
        (fun k => docCandidate docsFolder fn (k + 1) ∉ existing) with
    | some k => docCandidate docsFolder fn (k + 1)
    | none => plain
  else plain

/-- A session of downloads: each resolved filename in turn is given a free
target path, which is then recorded as existing (the file is written). -/
def runDownloads (docsFolder : String) :
    Finset String → List String → Finset String × List String
  | fs, [] => (fs, [])
  | fs, fn :: rest =>
    let t := downloadTarget fs docsFolder fn
    let r := runDownloads docsFolder (insert t fs) rest
    (r.1, t :: r.2)

/-- Decidable equality for extraction results (used to evaluate the
extractor on concrete documents). -/
instance {e a : Type} [DecidableEq e] [DecidableEq a] : DecidableEq (Except e a) :=
  fun x y =>
    match x, y with
    | .error u, .error v =>
      if h : u = v then .isTrue (by rw [h]) else .isFalse (by simp [h])
    | .ok u, .ok v =>
      if h : u = v then .isTrue (by rw [h]) else .isFalse (by simp [h])
    | .error _, .ok _ => .isFalse (by simp)
    | .ok _, .error _ => .isFalse (by simp)

/-! ## Specification-side definitions

These definitions follow the words of the specification (not the code) and
exist only to be compared with the embedded code above. -/

/-- Heading level of a tag name, `h1`..`h6`. -/
def headingLevelOf (t : String) : Option Nat :=
  (([("h1", 1), ("h2", 2), ("h3", 3), ("h4", 4), ("h5", 5), ("h6", 6)] :
    List (String × Nat)).find? (fun p => p.1 == t)).map (·.2)

/-- Specification wording for C5: the h1-h6 headings of the chosen node in
one document-order walk, each with its level and (nonempty stripped) text. -/
def docOrderHeadings (mc : HNode) : List Heading :=
  (findAllN (fun n => (headingLevelOf (nodeName n)).isSome) mc).filterMap
    (fun n =>
      match headingLevelOf (nodeName n) with
      | some lv =>
        let t := getTextStrip n
        if t != "" then some ⟨lv, t⟩ else none
      | none => none)

/-- Specification wording for C6: every paragraph/list-item/blockquote/
preformatted descendant of the chosen node, in document order, with its kind
and stripped text, before any length filtering. -/
def docOrderBlocks (mc : HNode) : List Block :=
  (findAllN (isTagIn blockTags) mc).map (fun e => ⟨nodeName e, getTextStrip e⟩)

/-- The main-content node the extractor chooses for a raw document (the
cleaning phase followed by the selection cascade). -/
def chosenMainContent (soup : HNode) : Option HNode :=
  mainContentOf (cleanSoup soup)

/-- Claim C7 as stated: (a) the basename when it contains a dot, else (b)
any filename parsed from `Content-Disposition`, else (c) the generated
name. -/
def specResolveFilenameClaim (urlPath : String) (cd : Option String)
    (ct : Option String) (downloadedCount : Nat) : String :=
  let base := basenameL urlPath.data
  if hasDotL base then ⟨base⟩
  else
    match cd.bind parseCDFilename with
    | some f => f
    | none =>
      let gen := "document_" ++ natToDec (downloadedCount + 1)
      match guessExtension (contentTypeMain ct) with
      | some e => gen ++ e
      | none => gen ++ ".bin"

/-- Claim C7 amended: the `Content-Disposition` name is used only when it
contains a dot, and the winning name is sanitized. -/
def specResolveFilenameAmended (urlPath : String) (cd : Option String)
    (ct : Option String) (downloadedCount : Nat) : String :=
  let gen : String :=
    let g := "document_" ++ natToDec (downloadedCount + 1)
    match guessExtension (contentTypeMain ct) with
    | some e => g ++ e
    | none => g ++ ".bin"
  let base := basenameL urlPath.data
  sanitizeFilename
    (if hasDotL base then ⟨base⟩
     else
       match cd.bind parseCDFilename with
       | some f => if hasDotL f.data then f else gen
       | none => gen)

/-! ## Concrete documents used by the individual claims -/

/-- A document whose `<title>` element is present but empty: `soup.title`
is truthy while `soup.title.string` is `None`. -/
def titleEmptyDoc : HNode :=
  .helem "[document]" [] (.ofL [
    .helem "html" [] (.ofL [
      .helem "head" [] (.ofL [.helem "title" [] .hnil]),
      .helem "body" [] (.ofL [
        .helem "p" [] (.ofL [.htext "enough body text to matter here"])])])])

/-- A document with no `<title>` element at all. -/
def titleMissingDoc : HNode :=
  .helem "[document]" [] (.ofL [
    .helem "html" [] (.ofL [
      .helem "body" [] (.ofL [
        .helem "p" [] (.ofL [.htext "enough body text to matter here"])])])])

/-- A document whose main content holds an `h2` before an `h1`. -/
def headingOrderDoc : HNode :=
  .helem "[document]" [] (.ofL [
    .helem "html" [] (.ofL [
      .helem "body" [] (.ofL [
        .helem "h2" [] (.ofL [.htext "Background section"]),
        .helem "h1" [] (.ofL [.htext "Main page title"])])])])

/-- A document whose main content holds a 10-character paragraph and a long
paragraph. -/
def shortBlockDoc : HNode :=
  .helem "[document]" [] (.ofL [
    .helem "html" [] (.ofL [
      .helem "body" [] (.ofL [
        .helem "p" [] (.ofL [.htext "0123456789"]),
        .helem "p" [] (.ofL [
          .htext "this paragraph is long enough to keep"])])])])

/-- The first page of the C9 scenario: one in-domain relative link and one
external link. -/
def scenarioPage : HNode :=
  .helem "[document]" [] (.ofL [
    .helem "html" [] (.ofL [
      .helem "body" [] (.ofL [
        .helem "a" [("href", "/about")] (.ofL [.htext "About"]),
        .helem "a" [("href", "https://other.com/x")] (.ofL [.htext "Other"])])])])

/-! ## Theorems -/

/-- Strings all of whose characters survive the fragment strip are unchanged
by a second strip. -/
theorem stripFragmentL_of_all (l : List Char) (h : ∀ c ∈ l, (c != '#') = true) :
    stripFragmentL l = l :=
  List.takeWhile_eq_self_iff.mpr h

theorem stripFragmentL_idem (l : List Char) :
    stripFragmentL (stripFragmentL l) = stripFragmentL l :=
  stripFragmentL_of_all _
    (fun _ hc => List.mem_takeWhile_imp (p := fun c => c != '#') hc)

theorem stripFragmentL_dropLast (l : List Char) :
    stripFragmentL (stripFragmentL l).dropLast = (stripFragmentL l).dropLast :=
  stripFragmentL_of_all _
    (fun _ hc => List.mem_takeWhile_imp (p := fun c => c != '#')
      ((List.dropLast_sublist _).subset hc))

/-- Claim C4 amended: normalization is idempotent on every URL whose
fragment-stripped form does not end in a double slash (the code strips only
one trailing slash, so `…//` needs two passes). -/
theorem spec_c4_amended (u : String)
    (h : ¬ ((stripFragmentL u.data).getLast? = some '/' ∧
            (stripFragmentL u.data).dropLast.getLast? = some '/')) :
    normalizeUrl (normalizeUrl u) = normalizeUrl u := by
  by_cases hc : (!isDocL (stripFragmentL u.data) &&
      ((stripFragmentL u.data).getLast? == some '/')) = true
  · have hslash : (stripFragmentL u.data).getLast? = some '/' :=
      beq_iff_eq.mp ((Bool.and_eq_true _ _).mp hc).2
    have hnd : ((stripFragmentL u.data).dropLast.getLast? == some '/') = false := by
      rw [beq_eq_false_iff_ne]
      exact fun hdd => h ⟨hslash, hdd⟩
    have e1 : normalizeUrl u = ⟨(stripFragmentL u.data).dropLast⟩ := by
      simp only [normalizeUrl, hc, if_true]
    rw [e1]
    simp only [normalizeUrl, stripFragmentL_dropLast, hnd, Bool.and_false]
    simp
  · rw [Bool.not_eq_true] at hc
    have e1 : normalizeUrl u = ⟨stripFragmentL u.data⟩ := by
      simp only [normalizeUrl, hc]
      simp
    rw [e1]
    simp only [normalizeUrl, stripFragmentL_idem, hc]
    simp

/-- Appending fixed strings on both sides is injective. -/
theorem sandwich_inj (a b : String) {x y : String}
    (h : a ++ x ++ b = a ++ y ++ b) : x = y := by
  have hd : (a ++ x ++ b).data = (a ++ y ++ b).data := congrArg String.data h
  simp only [String.data_append] at hd
  exact String.ext (List.append_cancel_left (List.append_cancel_right hd))

/-- Claim C3 amended: the artifact path is a function of the slug alone, so
two admitted URLs with distinct slugs are written to distinct artifacts;
distinct URLs with equal slugs (see the counterexample) are not. -/
theorem spec_c3_amended (folder u v : String)
    (h : getCleanFilename u ≠ getCleanFilename v) :
    pageArtifactPath folder u ≠ pageArtifactPath folder v := by
  intro he
  apply h
  have he2 : folder ++ "/" ++ (getCleanFilename u ++ ".json") =
      folder ++ "/" ++ (getCleanFilename v ++ ".json") := he
  have h3 := sandwich_inj (folder ++ "/") ".json"
      (x := getCleanFilename u) (y := getCleanFilename v) ?_
  · exact h3
  · calc folder ++ "/" ++ getCleanFilename u ++ ".json"
        = folder ++ "/" ++ (getCleanFilename u ++ ".json") := by
          simp [String.append_assoc]
      _ = folder ++ "/" ++ (getCleanFilename v ++ ".json") := he2
      _ = folder ++ "/" ++ getCleanFilename v ++ ".json" := by
          simp [String.append_assoc]

/-- The decimal renderer does not depend on the fuel, as long as the fuel
exceeds the number. -/
theorem decRender_fuel : ∀ (f1 : Nat), ∀ {f2 n : Nat}, n < f1 → n < f2 →
    decRender f1 n = decRender f2 n := by
  intro f1
  induction f1 with
  | zero => omega
  | succ f ih =>
    intro f2 n h1 h2
    cases f2 with
    | zero => omega
    | succ g =>
      simp only [decRender]
      by_cases hn : n < 10
      · simp [hn]
      · have hd : n / 10 < n := Nat.div_lt_self (by omega) (by omega)
        rw [if_neg hn, if_neg hn]
        congr 1
        exact ih (by omega) (by omega)

theorem decRender_ne_nil (f n : Nat) (h : 0 < f) : decRender f n ≠ [] := by
  cases f with
  | zero => omega
  | succ g =>
    simp only [decRender]
    by_cases hn : n < 10
    · simp [hn]
    · simp [hn]

/-- Canonical-fuel unfolding of the decimal renderer. -/
theorem decRender_succ (n : Nat) :
    decRender (n + 1) n =
      if n < 10 then [Nat.digitChar n]
      else decRender (n / 10 + 1) (n / 10) ++ [Nat.digitChar (n % 10)] := by
  simp only [decRender]
  by_cases hn : n < 10
  · simp [hn]
  · have hd : n / 10 < n := Nat.div_lt_self (by omega) (by omega)
    rw [if_neg hn, if_neg hn]
    congr 1
    exact @decRender_fuel n (n / 10 + 1) (n / 10) (by omega) (by omega)

/-- Decimal digit characters determine the digit. -/
theorem digitChar_inj_lt10 :
    ∀ n < 10, ∀ m < 10, Nat.digitChar n = Nat.digitChar m → n = m := by decide

/-- The decimal rendering of a natural number determines it. -/
theorem natToDec_inj : ∀ {n m : Nat}, natToDec n = natToDec m → n = m := by
  intro n
  induction n using Nat.strong_induction_on with
  | _ n ih =>
    intro m h
    have hl : decRender (n + 1) n = decRender (m + 1) m := by
      simpa [natToDec] using congrArg String.data h
    rw [decRender_succ n, decRender_succ m] at hl
    by_cases hn : n < 10 <;> by_cases hm : m < 10
    · rw [if_pos hn, if_pos hm] at hl
      simp only [List.cons.injEq, and_true] at hl
      exact digitChar_inj_lt10 n hn m hm hl
    · exfalso
      rw [if_pos hn, if_neg hm] at hl
      have hne := decRender_ne_nil (m / 10 + 1) (m / 10) (by omega)
      have hlen := congrArg List.length hl
      simp only [List.length_cons, List.length_nil, List.length_append] at hlen
      have : (decRender (m / 10 + 1) (m / 10)).length = 0 := by omega
      exact hne (List.length_eq_zero.mp this)
    · exfalso
      rw [if_neg hn, if_pos hm] at hl
      have hne := decRender_ne_nil (n / 10 + 1) (n / 10) (by omega)
      have hlen := congrArg List.length hl
      simp only [List.length_cons, List.length_nil, List.length_append] at hlen
      have : (decRender (n / 10 + 1) (n / 10)).length = 0 := by omega
      exact hne (List.length_eq_zero.mp this)
    · rw [if_neg hn, if_neg hm] at hl
      have hlast := congrArg List.getLast? hl
      simp only [List.getLast?_concat] at hlast
      have hmod : n % 10 = m % 10 :=
        digitChar_inj_lt10 _ (Nat.mod_lt _ (by omega)) _ (Nat.mod_lt _ (by omega))
          (by injection hlast)
      have hdrop := congrArg List.dropLast hl
      simp only [List.dropLast_concat] at hdrop
      have hdiv : n / 10 = m / 10 :=
        ih (n / 10) (Nat.div_lt_self (by omega) (by omega))
          (congrArg String.mk hdrop)
      have := Nat.div_add_mod n 10
      have := Nat.div_add_mod m 10
      omega

/-- Joining under a fixed folder is injective in the filename. -/
theorem pjoin_inj_right (a : String) {x y : String} (h : pjoin a x = pjoin a y) :
    x = y := by
  have hd := congrArg String.data h
  simp only [pjoin, String.data_append] at hd
  exact String.ext (List.append_cancel_left hd)

/-- Indexed collision candidates are pairwise distinct. -/
theorem docCandidate_succ_inj (folder fn : String) {k j : Nat}
    (h : docCandidate folder fn (k + 1) = docCandidate folder fn (j + 1)) :
    k = j := by
  have hk0 : (k + 1 == 0) = false := rfl
  have hj0 : (j + 1 == 0) = false := rfl
  simp only [docCandidate, hk0, hj0, Bool.false_eq_true, if_false] at h
  have h2 := pjoin_inj_right folder h
  have h3 := sandwich_inj ((⟨(splitextL fn.data).1⟩ : String) ++ "_")
    (⟨(splitextL fn.data).2⟩ : String)
    (x := natToDec (k + 1)) (y := natToDec (j + 1)) (by
      simpa [String.append_assoc] using h2)
  have := natToDec_inj h3
  omega

/-- The chosen download path is never an existing path. -/
theorem downloadTarget_not_mem (existing : Finset String) (folder fn : String) :
    downloadTarget existing folder fn ∉ existing := by
  unfold downloadTarget
  by_cases h0 : docCandidate folder fn 0 ∈ existing
  · simp only [h0, if_true]
    cases hf : (List.range (existing.card + 1)).find?
        (fun k => docCandidate folder fn (k + 1) ∉ existing) with
    | some k =>
      have hp := List.find?_some hf
      simpa using of_decide_eq_true hp
    | none =>
      exfalso
      have hall : ∀ k < existing.card + 1, docCandidate folder fn (k + 1) ∈ existing := by
        intro k hk
        have hnone := List.find?_eq_none.mp hf k (List.mem_range.mpr hk)
        simpa using hnone
      have hsub : (Finset.range (existing.card + 1)).image
          (fun k => docCandidate folder fn (k + 1)) ⊆ existing := by
        intro x hx
        obtain ⟨k, hk, rfl⟩ := Finset.mem_image.mp hx
        exact hall k (Finset.mem_range.mp hk)
      have hinj : Function.Injective (fun k => docCandidate folder fn (k + 1)) :=
        fun a b hab => docCandidate_succ_inj folder fn hab
      have hcard := Finset.card_le_card hsub
      rw [Finset.card_image_of_injective _ hinj, Finset.card_range] at hcard
      omega
  · simp [h0]

/-- Claim C8: within one session no download overwrites an existing file,
and the chosen paths are pairwise distinct. -/
theorem spec_c8_no_overwrite (docsFolder : String) :
    ∀ (fns : List String) (fs : Finset String),
      (runDownloads docsFolder fs fns).2.Nodup ∧
        ∀ p ∈ (runDownloads docsFolder fs fns).2, p ∉ fs := by
  intro fns
  induction fns with
  | nil =>
    intro fs
    simp [runDownloads]
  | cons fn rest ih =>
    intro fs
    simp only [runDownloads]
    obtain ⟨hnd, hfresh⟩ := ih (insert (downloadTarget fs docsFolder fn) fs)
    refine ⟨List.nodup_cons.mpr ⟨fun hmem => ?_, hnd⟩, ?_⟩
    · exact (hfresh _ hmem) (Finset.mem_insert_self _ _)
    · intro p hp
      rcases List.mem_cons.mp hp with rfl | hp2
      · exact downloadTarget_not_mem fs docsFolder fn
      · exact fun hin => hfresh p hp2 (Finset.mem_insert_of_mem hin)

/-- Witness for C8 on a concrete double download of the same name. -/
theorem spec_c8_witness :
    (runDownloads "docs" ∅ ["r.pdf", "r.pdf"]).2.Nodup ∧
      "docs/r_1.pdf" ∉ (∅ : Finset String) :=
  ⟨(spec_c8_no_overwrite "docs" ["r.pdf", "r.pdf"] ∅).1,
   (spec_c8_no_overwrite "docs" ["r.pdf", "r.pdf"] ∅).2 "docs/r_1.pdf"
     (by decide)⟩

/-- A URL emitted by the per-href pipeline is not in the visited set it was
checked against. -/
theorem candidateUrl_not_visited {b p href u : String} {vis : Finset String}
    (h : candidateUrl b p vis href = some u) : u ∉ vis := by
  simp only [candidateUrl] at h
  split at h
  · exact absurd h (by simp)
  · split at h
    · exact absurd h (by simp)
    · split at h
      · split at h
        · split at h
          · exact absurd h (by simp)
          · rename_i hmem
            exact (Option.some.inj h) ▸ hmem
        · exact absurd h (by simp)
      · split at h
        · split at h
          · exact absurd h (by simp)
          · rename_i hmem
            exact (Option.some.inj h) ▸ hmem
        · exact absurd h (by simp)

/-- Nothing `extract_urls` discovers is already visited. -/
theorem mem_extractUrlsSet_not_visited {b p u : String} {soup : HNode}
    {vis : Finset String} (h : u ∈ extractUrlsSet b p soup vis) : u ∉ vis := by
  rw [extractUrlsSet, List.mem_toFinset] at h
  simp only [extractUrlsList, List.mem_filterMap] at h
  obtain ⟨a, _, ha⟩ := h
  exact candidateUrl_not_visited ha

/-- One crawl step never removes a URL from the visited set. -/
theorem step_visited_subset {b : String} {s s' : CrawlState} (h : Step b s s') :
    s.visited ⊆ s'.visited := by
  cases h with
  | mk url html hu =>
    unfold crawlStep
    by_cases hv : url ∈ s.visited
    · simp [hv]
    · cases html with
      | none => simp [hv, Finset.subset_insert]
      | some soup => simp [hv, Finset.subset_insert]

/-- One crawl step preserves disjointness of visited and pending. -/
theorem step_disjoint {b : String} {s s' : CrawlState} (h : Step b s s')
    (hd : Disjoint s.visited s.pending) : Disjoint s'.visited s'.pending := by
  cases h with
  | mk url html hu =>
    unfold crawlStep
    by_cases hv : url ∈ s.visited
    · simp only [hv, if_true]
      exact Finset.disjoint_of_subset_right (Finset.erase_subset _ _) hd
    · simp only [hv, if_false]
      have hbase : Disjoint (insert url s.visited) (s.pending.erase url) := by
        rw [Finset.disjoint_left]
        intro x hx hxe
        rcases Finset.mem_insert.mp hx with rfl | hxv
        · exact (Finset.mem_erase.mp hxe).1 rfl
        · exact (Finset.disjoint_left.mp hd hxv) (Finset.mem_of_mem_erase hxe)
      cases html with
      | none => simpa using hbase
      | some soup =>
        simp only []
        rw [Finset.disjoint_union_right]
        refine ⟨hbase, ?_⟩
        rw [Finset.disjoint_left]
        intro x hx hxe
        exact mem_extractUrlsSet_not_visited hxe hx

/-- Claim C1: along every run the visited set only grows, visited and
pending stay disjoint, and a discovered link enters pending only if its
normalized form is unvisited (pending, a `Finset`, holds it at most once). -/
theorem spec_c1_frontier_invariants (b : String) :
    (∀ s s' : CrawlState, Reaches b s s' → s.visited ⊆ s'.visited) ∧
    (∀ startUrl s, Reaches b (initState startUrl) s →
      Disjoint s.visited s.pending) ∧
    (∀ pageUrl (soup : HNode) (vis : Finset String) (u : String),
      u ∈ extractUrlsSet b pageUrl soup vis → u ∉ vis) := by
  refine ⟨?_, ?_, ?_⟩
  · intro s s' h
    induction h with
    | refl => exact subset_rfl
    | tail h1 h2 ih => exact ih.trans (step_visited_subset h2)
  · intro startUrl s h
    have hinit : Disjoint (initState startUrl).visited (initState startUrl).pending := by
      simp [initState]
    induction h with
    | refl => exact hinit
    | tail h1 h2 ih => exact step_disjoint h2 ih
  · intro pageUrl soup vis u hu
    exact mem_extractUrlsSet_not_visited hu

/-- Witness for C1 at a concrete run. -/
theorem spec_c1_witness :
    (initState "https://example.com/").visited ⊆
      (initState "https://example.com/").visited ∧
    Disjoint (initState "https://example.com/").visited
      (initState "https://example.com/").pending :=
  ⟨(spec_c1_frontier_invariants "example.com").1 _ _ Relation.ReflTransGen.refl,
   (spec_c1_frontier_invariants "example.com").2.1 "https://example.com/" _
     Relation.ReflTransGen.refl⟩

/-- String eta. -/
theorem mk_data (s : String) : (⟨s.data⟩ : String) = s := rfl

/-- Claim C10: extraction and persistence of a page are deterministic: the
emitted record (including order of fields and derived counts) does not depend
on the crawl state the step runs in. -/
theorem spec_c10_deterministic (outputFolder url : String) (soup : HNode)
    (s1 s2 : CrawlState) :
    (processPage outputFolder s1 url soup).2 =
      (processPage outputFolder s2 url soup).2 := by
  unfold processPage
  cases extractStructuredContent url soup <;> rfl

/-- Claim C9: the concrete one-step scenario. -/
theorem spec_c9_scenario :
    "https://example.com/" ∈ (initState "https://example.com/").pending ∧
    (crawlStep (urlNetloc (baseUrlOf "https://example.com/"))
        (initState "https://example.com/") "https://example.com/"
        (some scenarioPage)).pending = {"https://example.com/about"} ∧
    (crawlStep (urlNetloc (baseUrlOf "https://example.com/"))
        (initState "https://example.com/") "https://example.com/"
        (some scenarioPage)).visited = {"https://example.com/"} := by decide

/-- Claim C2 (code bug): on a document whose `<title>` element is present
but empty the extractor raises (`AttributeError` on `None.strip()`), while a
document with no `<title>` at all gets the `"No Title"` fallback. -/
theorem spec_c2_raises_on_empty_title :
    extractStructuredContent "https://example.com/page" titleEmptyDoc =
      .error "AttributeError" ∧
    (extractStructuredContent "https://example.com/page" titleMissingDoc).toOption.map
      Page.title = some "No Title" := by decide

/-- Claim C4 counterexample: a URL whose fragment-stripped form ends in a
double slash is not a fixed point after one normalization. -/
theorem spec_c4_counterexample :
    normalizeUrl (normalizeUrl "https://example.com/a//") ≠
      normalizeUrl "https://example.com/a//" ∧
    normalizeUrl "https://example.com/a//" = "https://example.com/a/" ∧
    normalizeUrl (normalizeUrl "https://example.com/a//") =
      "https://example.com/a" := by decide

/-- Witness for the amended C4 at a concrete single-trailing-slash URL. -/
theorem spec_c4_witness :
    normalizeUrl (normalizeUrl "https://example.com/about/") =
      normalizeUrl "https://example.com/about/" :=
  spec_c4_amended "https://example.com/about/" (by decide)

/-- Claim C3 counterexample: two distinct normalized, frontier-valid URLs
with the same artifact path. -/
theorem spec_c3_counterexample :
    ("https://example.com/a/b" : String) ≠ "https://example.com/a_b" ∧
    normalizeUrl "https://example.com/a/b" = "https://example.com/a/b" ∧
    normalizeUrl "https://example.com/a_b" = "https://example.com/a_b" ∧
    isValidUrl "example.com" "https://example.com/a/b" = true ∧
    isValidUrl "example.com" "https://example.com/a_b" = true ∧
    pageArtifactPath "scraped_data" "https://example.com/a/b" =
      pageArtifactPath "scraped_data" "https://example.com/a_b" := by decide

/-- Witness for the amended C3 at two URLs with distinct slugs. -/
theorem spec_c3_witness :
    pageArtifactPath "scraped_data" "https://example.com/contact" ≠
      pageArtifactPath "scraped_data" "https://example.com/about" :=
  spec_c3_amended "scraped_data" "https://example.com/contact"
    "https://example.com/about" (by decide)

/-- Claim C7 counterexample: a dotless `Content-Disposition` filename is
discarded by the code, against the stated resolution order. -/
theorem spec_c7_counterexample :
    resolveFilename "/file" (some "attachment; filename=report") none 0 =
      "document_1.bin" ∧
    specResolveFilenameClaim "/file" (some "attachment; filename=report") none 0 =
      "report" ∧
    ("document_1.bin" : String) ≠ "report" := by decide

/-- An empty-or-dotless test collapses to a dotless test (the empty name has
no dot). -/
theorem empty_or_dotless (l : List Char) :
    (l == ([] : List Char) || !hasDotL l) = !hasDotL l := by
  cases l with
  | nil => rfl
  | cons c t =>
    have h0 : ((c :: t : List Char) == ([] : List Char)) = false := rfl
    rw [h0, Bool.false_or]

/-- Claim C7 amended: the implemented resolution equals the cascade in which
a `Content-Disposition` name is used only when it contains a dot, together
with the stated concrete scenarios. -/
theorem spec_c7_amended :
    (∀ (urlPath : String) (cd ct : Option String) (n : Nat),
      resolveFilename urlPath cd ct n = specResolveFilenameAmended urlPath cd ct n) ∧
    resolveFilename "/file" (some "attachment; filename=\"report.pdf\"")
      (some "application/pdf") 0 = "report.pdf" ∧
    resolveFilename "/file" none (some "application/pdf") 0 = "document_1.pdf" ∧
    resolveFilename "/file" none (some "application/x-mystery") 0 =
      "document_1.bin" := by
  refine ⟨?_, by decide, by decide, by decide⟩
  intro up cd ct n
  simp only [resolveFilename, specResolveFilenameAmended, empty_or_dotless]
  cases cd with
  | none =>
    by_cases hdot : hasDotL (basenameL up.data)
    · simp [hdot, mk_data]
    · simp [hdot, mk_data]
      cases guessExtension (contentTypeMain ct) <;> rfl
  | some h =>
    cases hp : parseCDFilename h with
    | none =>
      by_cases hdot : hasDotL (basenameL up.data)
      · simp [hdot, hp, mk_data]
      · simp [hdot, hp, mk_data]
        cases guessExtension (contentTypeMain ct) <;> rfl
    | some f =>
      by_cases hdot : hasDotL (basenameL up.data)
      · simp [hdot, hp, mk_data]
      · by_cases hf : hasDotL f.data
        · simp [hdot, hp, hf, mk_data]
        · simp [hdot, hp, hf, mk_data]
          cases guessExtension (contentTypeMain ct) <;> rfl

/-- Successful extraction, written out by components. -/
theorem extract_components (url : String) (soup : HNode) (t : String)
    (ht : titleResult soup = .ok t) :
    extractStructuredContent url soup = .ok {
      url := url, title := t, metaDescription := metaDescOf soup,
      headings := ((chosenMainContent soup).map headingsOf).getD [],
      contentBlocks := ((chosenMainContent soup).map blocksOf).getD [],
      images := ((chosenMainContent soup).map (imagesOf url)).getD [],
      links := ((chosenMainContent soup).map (linksOf url)).getD [],
      plainText := plainTextOf t (metaDescOf soup)
        (((chosenMainContent soup).map headingsOf).getD [])
        (((chosenMainContent soup).map blocksOf).getD []) } := by
  unfold extractStructuredContent chosenMainContent
  rw [ht]
  cases mainContentOf (cleanSoup soup) <;> simp

/-- A successful extraction comes from a successful title computation. -/
theorem extract_isSome_title (url : String) (soup : HNode)
    (h : (extractStructuredContent url soup).toOption.isSome = true) :
    ∃ t, titleResult soup = .ok t := by
  cases ht : titleResult soup with
  | ok t => exact ⟨t, rfl⟩
  | error e =>
    exfalso
    rw [extractStructuredContent, ht] at h
    simp [Except.toOption] at h

/-- The retained blocks are exactly the document-order blocks whose stripped
text is strictly longer than 10 characters. -/
theorem blocksOf_eq_filter (mc : HNode) :
    blocksOf mc = (docOrderBlocks mc).filter (fun bl => 10 < bl.text.length) := by
  have key : ∀ (l : List HNode),
      List.filterMap (fun e =>
        if 10 < (getTextStrip e).length then
          some (⟨nodeName e, getTextStrip e⟩ : Block)
        else none) l =
      (l.map (fun e => (⟨nodeName e, getTextStrip e⟩ : Block))).filter
        (fun bl => 10 < bl.text.length) := by
    intro l
    induction l with
    | nil => rfl
    | cons e t ih =>
      simp only [List.filterMap_cons, List.map_cons, List.filter_cons]
      by_cases hlen : 10 < (getTextStrip e).length
      · simp [hlen, ih]
      · simp [hlen, ih]
  unfold blocksOf docOrderBlocks
  rw [← key]
  apply List.filterMap_congr
  intro e _
  by_cases hlen : 10 < (getTextStrip e).length
  · have hne : (getTextStrip e != "") = true := by
      rw [bne_iff_ne]
      intro he
      rw [he] at hlen
      simp at hlen
    simp [hlen, hne]
  · simp [hlen]

/-- Claim C6 amended: a block element of the chosen main-content node is
retained exactly when its stripped text has length strictly greater than 10
(length-10 blocks are dropped). -/
theorem spec_c6_amended (url : String) (soup : HNode)
    (h : (extractStructuredContent url soup).toOption.isSome = true) :
    (extractStructuredContent url soup).toOption.map Page.contentBlocks =
      some (((chosenMainContent soup).map (fun mc =>
        (docOrderBlocks mc).filter (fun bl => 10 < bl.text.length))).getD []) := by
  obtain ⟨t, ht⟩ := extract_isSome_title url soup h
  rw [extract_components url soup t ht]
  simp only [Except.toOption, Option.map_some]  
  cases hmc : chosenMainContent soup with
  | none => simp
  | some mc => simp [blocksOf_eq_filter]

/-- Claim C6 counterexample: a 10-character paragraph is dropped, although
the claim says blocks of length at least 10 are retained. -/
theorem spec_c6_counterexample :
    (extractStructuredContent "https://example.com/p6" shortBlockDoc).toOption.map
        Page.contentBlocks =
      some [⟨"p", "this paragraph is long enough to keep"⟩] ∧
    ("0123456789" : String).length = 10 ∧
    (((chosenMainContent shortBlockDoc).map docOrderBlocks).getD []).contains
      ⟨"p", "0123456789"⟩ = true := by decide

/-- Witness for the amended C6 on a concrete document. -/
theorem spec_c6_witness :
    (extractStructuredContent "https://example.com/p6" shortBlockDoc).toOption.map
        Page.contentBlocks =
      some (((chosenMainContent shortBlockDoc).map (fun mc =>
        (docOrderBlocks mc).filter (fun bl => 10 < bl.text.length))).getD []) :=
  spec_c6_amended "https://example.com/p6" shortBlockDoc (by decide)

mutual
/-- Searching with a stronger predicate is the same as filtering the search
with a weaker one. -/
theorem findAllN_subpred (p q : HNode → Bool) (h : ∀ n, q n = true → p n = true) :
    ∀ x : HNode, findAllN q x = (findAllN p x).filter q
  | .htext _ => rfl
  | .helem t a cs => by
    simp only [findAllN]
    exact findAllF_subpred p q h cs

/-- Forest version of `findAllN_subpred`. -/
theorem findAllF_subpred (p q : HNode → Bool) (h : ∀ n, q n = true → p n = true) :
    ∀ l : HForest, findAllF q l = (findAllF p l).filter q
  | .hnil => rfl
  | .hcons n r => by
    simp only [findAllF, List.filter_append]
    rw [← findAllN_subpred p q h n, ← findAllF_subpred p q h r]
    have hhead : (if q n then [n] else []) =
        (if p n then [n] else []).filter q := by
      by_cases hq : q n = true
      · rw [if_pos hq, if_pos (h n hq)]
        simp [hq]
      · rw [if_neg hq]
        by_cases hp : p n = true
        · rw [if_pos hp]
          simp [List.filter, hq]
        · rw [if_neg hp]
          rfl
    rw [hhead]
end

/-- Level tags are injective. -/
theorem levelTag_inj {a b : Nat} (h : levelTag a = levelTag b) : a = b := by
  have hd := congrArg String.data h
  simp only [levelTag, String.data_append] at hd
  exact natToDec_inj (String.ext (List.append_cancel_left hd))

/-- A tag recognized at some level is exactly that level tag, and the level
is between 1 and 6. -/
theorem headingLevelOf_eq_some {t : String} {lv : Nat}
    (h : headingLevelOf t = some lv) : t = levelTag lv ∧ 1 ≤ lv ∧ lv ≤ 6 := by
  unfold headingLevelOf at h
  obtain ⟨pr, hf, h2⟩ := Option.map_eq_some'.mp h
  have hmem := List.mem_of_find?_eq_some hf
  have hpred := List.find?_some hf
  fin_cases hmem <;>
    (simp only [beq_iff_eq] at hpred
     subst hpred
     subst h2
     exact ⟨by decide, by decide, by decide⟩)

/-- One level of the heading walk: filtering the document-order headings to
one level matches the per-level `find_all`. -/
theorem docOrder_filter_level (mc : HNode) (lv : Nat)
    (hlv : headingLevelOf (levelTag lv) = some lv) :
    (docOrderHeadings mc).filter (fun hd => hd.level == lv) =
      (findAllN (isTag (levelTag lv)) mc).filterMap (fun h =>
        if getTextStrip h != "" then some (⟨lv, getTextStrip h⟩ : Heading)
        else none) := by
  have himp : ∀ n, isTag (levelTag lv) n = true →
      ((headingLevelOf (nodeName n)).isSome) = true := by
    intro n hn
    cases n with
    | htext s => exact absurd hn (by simp [isTag])
    | helem t a cs =>
      have ht : t = levelTag lv := beq_iff_eq.mp (by simpa [isTag] using hn)
      simp [nodeName, ht, hlv]
  unfold docOrderHeadings
  rw [List.filter_filterMap,
    findAllN_subpred (fun n => (headingLevelOf (nodeName n)).isSome)
      (isTag (levelTag lv)) himp mc,
    List.filterMap_filter]
  apply List.filterMap_congr
  intro n _
  cases n with
  | htext s =>
    simp [nodeName, isTag, headingLevelOf]
  | helem t a cs =>
    cases hh : headingLevelOf t with
    | none =>
      have hne : (isTag (levelTag lv) (HNode.helem t a cs)) = false := by
        simp only [isTag, beq_eq_false_iff_ne]
        intro he
        rw [he, hlv] at hh
        exact Option.noConfusion hh
      simp [nodeName, hh, hne]
    | some lv2 =>
      obtain ⟨ht, _, _⟩ := headingLevelOf_eq_some hh
      by_cases hlv2 : lv2 = lv
      · subst hlv2
        have htt : (isTag (levelTag lv2) (HNode.helem t a cs)) = true := by
          simp [isTag, ht]
        simp only [nodeName, hh, htt, if_true]
        by_cases htx : (getTextStrip (HNode.helem t a cs) != "") = true
        · simp [htx, Option.filter_some]
        · simp [htx]
      · have hne : (isTag (levelTag lv) (HNode.helem t a cs)) = false := by
          simp only [isTag, beq_eq_false_iff_ne]
          intro he
          exact hlv2 (levelTag_inj (ht ▸ he))
        have hq : (lv2 == lv) = false := beq_eq_false_iff_ne.mpr hlv2
        simp only [nodeName, hh, hne, if_false]
        by_cases htx : (getTextStrip (HNode.helem t a cs) != "") = true
        · simp [htx, Option.filter_some, hq]
        · simp [htx]

/-- The implemented heading extraction groups by level 1..6, in document
order within each level. -/
theorem headingsOf_eq_grouped (mc : HNode) :
    headingsOf mc = (List.range 6).flatMap (fun i =>
      (docOrderHeadings mc).filter (fun hd => hd.level == i + 1)) := by
  unfold headingsOf
  apply List.flatMap_congr
  intro i hi
  have hi6 : i < 6 := List.mem_range.mp hi
  interval_cases i <;> exact (docOrder_filter_level mc _ (by decide)).symm

/-- Claim C5 amended: the headings field lists the h1-h6 headings of the
chosen main-content node grouped by level (all h1 first, then h2, …), in
document order within each level — not in overall document order. -/
theorem spec_c5_amended (url : String) (soup : HNode)
    (h : (extractStructuredContent url soup).toOption.isSome = true) :
    (extractStructuredContent url soup).toOption.map Page.headings =
      some (((chosenMainContent soup).map (fun mc =>
        (List.range 6).flatMap (fun i =>
          (docOrderHeadings mc).filter (fun hd => hd.level == i + 1)))).getD []) := by
  obtain ⟨t, ht⟩ := extract_isSome_title url soup h
  rw [extract_components url soup t ht]
  simp only [Except.toOption, Option.map_some]
  cases hmc : chosenMainContent soup with
  | none => simp
  | some mc => simp [headingsOf_eq_grouped]

/-- Claim C5 counterexample: with an `h2` before an `h1` the produced list
is not in document order. -/
theorem spec_c5_counterexample :
    (extractStructuredContent "https://example.com/p5" headingOrderDoc).toOption.map
        Page.headings =
      some [⟨1, "Main page title"⟩, ⟨2, "Background section"⟩] ∧
    ((chosenMainContent headingOrderDoc).map docOrderHeadings).getD [] =
      [⟨2, "Background section"⟩, ⟨1, "Main page title"⟩] ∧
    ([⟨1, "Main page title"⟩, ⟨2, "Background section"⟩] : List Heading) ≠
      [⟨2, "Background section"⟩, ⟨1, "Main page title"⟩] := by decide

/-- Witness for the amended C5 on a concrete document. -/
theorem spec_c5_witness :
    (extractStructuredContent "https://example.com/p5" headingOrderDoc).toOption.map
        Page.headings =
      some (((chosenMainContent headingOrderDoc).map (fun mc =>
        (List.range 6).flatMap (fun i =>
          (docOrderHeadings mc).filter (fun hd => hd.level == i + 1)))).getD []) :=
  spec_c5_amended "https://example.com/p5" headingOrderDoc (by decide)

end Scraper
